import Mathlib

/-!
Shallow embedding of `llama_index/core/memory/types.py`: the short-term
memory tier (`BaseMemory` / `BaseChatStoreMemory` over a pluggable chat
store), the serialization hook, and a reference model of the long-term
tier (`LongTermMemory`). Methods of `BaseChatStoreMemory` are translated
from the source; the chat-store collaborator (`BaseChatStore` /
`SimpleChatStore`) and the abstract `LongTermMemory` retrieval semantics
are not in the verified sources and are modelled from the specification,
as marked in each doc comment.
-/

namespace LlamaIndexMemory

/-- A chat message: a role plus textual content (the `ChatMessage` value
type from `llama_index.core.base.llms.types`, reduced to the fields the
memory layer stores opaquely; the memory tier never inspects it). -/
structure ChatMessage where
  role : String
  content : String
deriving DecidableEq, Repr

/-- Modelled from the spec: the `BaseChatStore` collaborator (not under the
verified sources) is a keyed, ordered-list store mapping a string key to an
ordered sequence of messages; reads on an absent key return the empty
sequence, so the state is a total function from keys to histories. -/
def ChatStoreState : Type := String → List ChatMessage

/-- Modelled from the spec: `get_messages(key)` returns the complete ordered
sequence stored under `key`. -/
def ChatStoreState.get_messages (s : ChatStoreState) (key : String) : List ChatMessage :=
  s key

/-- Modelled from the spec: `add_message(key, message)` appends one message
at the end of the sequence under `key` (append-only list semantics within a
key), touching no other key. -/
def ChatStoreState.add_message (s : ChatStoreState) (key : String) (m : ChatMessage) :
    ChatStoreState :=
  fun k => if k = key then s key ++ [m] else s k

/-- Modelled from the spec: the suspend-capable append `async_add_message`
defaults to performing the blocking append with identical semantics and no
additional concurrency. -/
def ChatStoreState.async_add_message (s : ChatStoreState) (key : String) (m : ChatMessage) :
    ChatStoreState :=
  s.add_message key m

/-- Modelled from the spec: `set_messages(key, messages)` replaces the whole
sequence under `key`; prior contents are discarded. -/
def ChatStoreState.set_messages (s : ChatStoreState) (key : String) (ms : List ChatMessage) :
    ChatStoreState :=
  fun k => if k = key then ms else s k

/-- Modelled from the spec: `delete_messages(key)` removes the history under
`key` entirely; a subsequent read returns the empty sequence. -/
def ChatStoreState.delete_messages (s : ChatStoreState) (key : String) : ChatStoreState :=
  fun k => if k = key then [] else s k

/-- `DEFAULT_CHAT_STORE_KEY = "chat_history"` (source line 10). -/
def DEFAULT_CHAT_STORE_KEY : String := "chat_history"

/-- `BaseChatStoreMemory`: wraps one chat store and one bound key
(source lines 115-122). The pydantic fields `chat_store` and
`chat_store_key` are the whole mutable configuration. -/
structure BaseChatStoreMemory where
  chat_store : ChatStoreState
  chat_store_key : String

/-- `get_all` returns `self.chat_store.get_messages(self.chat_store_key)`
(source lines 145-147). -/
def BaseChatStoreMemory.get_all (mem : BaseChatStoreMemory) : List ChatMessage :=
  mem.chat_store.get_messages mem.chat_store_key

/-- `put` forwards to `self.chat_store.add_message(self.chat_store_key, message)`
(source lines 149-152). -/
def BaseChatStoreMemory.put (mem : BaseChatStoreMemory) (message : ChatMessage) :
    BaseChatStoreMemory :=
  { mem with chat_store := mem.chat_store.add_message mem.chat_store_key message }

/-- `aput` awaits `self.chat_store.async_add_message(self.chat_store_key, message)`
(source lines 154-157). -/
def BaseChatStoreMemory.aput (mem : BaseChatStoreMemory) (message : ChatMessage) :
    BaseChatStoreMemory :=
  { mem with chat_store := mem.chat_store.async_add_message mem.chat_store_key message }

/-- `set` forwards to `self.chat_store.set_messages(self.chat_store_key, messages)`
(source lines 159-161). -/
def BaseChatStoreMemory.set (mem : BaseChatStoreMemory) (messages : List ChatMessage) :
    BaseChatStoreMemory :=
  { mem with chat_store := mem.chat_store.set_messages mem.chat_store_key messages }

/-- `reset` forwards to `self.chat_store.delete_messages(self.chat_store_key)`
(source lines 163-165). -/
def BaseChatStoreMemory.reset (mem : BaseChatStoreMemory) : BaseChatStoreMemory :=
  { mem with chat_store := mem.chat_store.delete_messages mem.chat_store_key }

/-- `BaseMemory.put_messages` iterates `self.put(message)` over the list
(source lines 48-51); the loop is a left fold of `put` over the state. -/
def BaseChatStoreMemory.put_messages (mem : BaseChatStoreMemory)
    (messages : List ChatMessage) : BaseChatStoreMemory :=
  messages.foldl (fun acc m => acc.put m) mem

/-- Reference behavior in the words of the spec: a sequence of single `put`
calls, one per message, in list order. -/
def putSeq : BaseChatStoreMemory → List ChatMessage → BaseChatStoreMemory
  | mem, [] => mem
  | mem, m :: ms => putSeq (mem.put m) ms

/- Helper lemmas on the short-term tier. -/

theorem get_all_put (mem : BaseChatStoreMemory) (m : ChatMessage) :
    (mem.put m).get_all = mem.get_all ++ [m] := by
  simp [BaseChatStoreMemory.get_all, BaseChatStoreMemory.put,
    ChatStoreState.get_messages, ChatStoreState.add_message]

theorem putSeq_get_all (ms : List ChatMessage) (mem : BaseChatStoreMemory) :
    (putSeq mem ms).get_all = mem.get_all ++ ms := by
  induction ms generalizing mem with
  | nil => simp [putSeq]
  | cons m ms ih => rw [putSeq, ih, get_all_put]; simp

/-- C1: each `put` appends its message at the end of the history observed by
`get_all`, and from an empty history for the bound key a sequence of `put`
calls leaves `get_all` returning exactly the put messages in call order. -/
theorem put_read_your_writes :
    (∀ (mem : BaseChatStoreMemory) (m : ChatMessage),
      (mem.put m).get_all = mem.get_all ++ [m]) ∧
    (∀ (mem : BaseChatStoreMemory) (ms : List ChatMessage),
      mem.get_all = [] → (putSeq mem ms).get_all = ms) := by
  refine ⟨get_all_put, fun mem ms h => ?_⟩
  rw [putSeq_get_all, h]; simp

/-- Witness for C1 at a concrete memory and message list. -/
theorem put_read_your_writes_witness :
    (putSeq ⟨fun _ => [], "k"⟩ [⟨"user", "hi"⟩, ⟨"assistant", "hello"⟩]).get_all
      = [⟨"user", "hi"⟩, ⟨"assistant", "hello"⟩] :=
  put_read_your_writes.2 ⟨fun _ => [], "k"⟩ [⟨"user", "hi"⟩, ⟨"assistant", "hello"⟩] rfl

/-- C2: the batch `put_messages` produces exactly the final state of repeated
single `put` calls in list order, on every memory state. -/
theorem put_messages_eq_putSeq (mem : BaseChatStoreMemory) (ms : List ChatMessage) :
    mem.put_messages ms = putSeq mem ms := by
  induction ms generalizing mem with
  | nil => rfl
  | cons m ms ih => rw [BaseChatStoreMemory.put_messages, List.foldl_cons, putSeq]
                    exact ih (mem.put m)

/-- C4: after `reset`, `get_all` returns the empty sequence, and the
histories of every key other than the bound key are unchanged. -/
theorem reset_clears_bound_key_only (mem : BaseChatStoreMemory) :
    mem.reset.get_all = [] ∧
    (∀ k, k ≠ mem.chat_store_key → mem.reset.chat_store k = mem.chat_store k) := by
  constructor
  · simp [BaseChatStoreMemory.get_all, BaseChatStoreMemory.reset,
      ChatStoreState.get_messages, ChatStoreState.delete_messages]
  · intro k hk
    simp [BaseChatStoreMemory.reset, ChatStoreState.delete_messages, hk]

/-- Witness for C4 at a concrete memory and a concrete other key. -/
theorem reset_clears_bound_key_only_witness :
    (⟨fun _ => [⟨"user", "hi"⟩], "k"⟩ : BaseChatStoreMemory).reset.get_all = [] ∧
    (⟨fun _ => [⟨"user", "hi"⟩], "k"⟩ : BaseChatStoreMemory).reset.chat_store "other"
      = [⟨"user", "hi"⟩] := by
  have h := reset_clears_bound_key_only ⟨fun _ => [⟨"user", "hi"⟩], "k"⟩
  exact ⟨h.1, h.2 "other" (by decide)⟩

/-- C5: `set` is idempotent: two successive `set` calls with the same
messages leave the same observable `get_all` result as one. -/
theorem set_idempotent (mem : BaseChatStoreMemory) (msgs : List ChatMessage) :
    ((mem.set msgs).set msgs).get_all = (mem.set msgs).get_all := by
  simp [BaseChatStoreMemory.get_all, BaseChatStoreMemory.set,
    ChatStoreState.get_messages, ChatStoreState.set_messages]

/-- C9: the asynchronous `aput` (whose backend path defaults to the blocking
append) produces exactly the same final state, hence the same `get_all`
result, as the blocking `put`. -/
theorem aput_eq_put (mem : BaseChatStoreMemory) (m : ChatMessage) :
    mem.aput m = mem.put m ∧ (mem.aput m).get_all = (mem.put m).get_all :=
  ⟨rfl, rfl⟩

theorem put_frame (mem : BaseChatStoreMemory) (m : ChatMessage) (k : String)
    (hk : k ≠ mem.chat_store_key) : (mem.put m).chat_store k = mem.chat_store k := by
  simp [BaseChatStoreMemory.put, ChatStoreState.add_message, hk]

theorem put_messages_frame (mem : BaseChatStoreMemory) (ms : List ChatMessage) (k : String)
    (hk : k ≠ mem.chat_store_key) :
    (mem.put_messages ms).chat_store k = mem.chat_store k := by
  rw [put_messages_eq_putSeq]
  induction ms generalizing mem with
  | nil => rfl
  | cons m ms ih =>
      rw [putSeq, ih (mem.put m) hk]
      exact put_frame mem m k hk

/-- C6: every state-mutating operation (`put`, `aput`, `put_messages`, `set`,
`reset`) leaves the stored sequence of every key other than the bound
`chat_store_key` unchanged. -/
theorem mutators_touch_only_bound_key (mem : BaseChatStoreMemory) (k : String)
    (hk : k ≠ mem.chat_store_key) :
    (∀ m, (mem.put m).chat_store k = mem.chat_store k) ∧
    (∀ m, (mem.aput m).chat_store k = mem.chat_store k) ∧
    (∀ ms, (mem.put_messages ms).chat_store k = mem.chat_store k) ∧
    (∀ ms, (mem.set ms).chat_store k = mem.chat_store k) ∧
    (mem.reset.chat_store k = mem.chat_store k) := by
  refine ⟨fun m => put_frame mem m k hk, fun m => put_frame mem m k hk,
    fun ms => put_messages_frame mem ms k hk, fun ms => ?_, ?_⟩
  · simp [BaseChatStoreMemory.set, ChatStoreState.set_messages, hk]
  · simp [BaseChatStoreMemory.reset, ChatStoreState.delete_messages, hk]

/-- Witness for C6 at a concrete memory, key and message. -/
theorem mutators_touch_only_bound_key_witness :
    ((⟨fun _ => [], "k"⟩ : BaseChatStoreMemory).put ⟨"user", "hi"⟩).chat_store "other" = [] ∧
    ((⟨fun _ => [], "k"⟩ : BaseChatStoreMemory).reset).chat_store "other" = [] := by
  have h := mutators_touch_only_bound_key ⟨fun _ => [], "k"⟩ "other" (by decide)
  exact ⟨h.1 ⟨"user", "hi"⟩, h.2.2.2.2⟩

/- Fallible-backend model for batch-write error behavior. -/

/-- Modelled from the spec: a backend append may fail (backend-origin
failures surface unmodified to the caller); `fails` marks the messages this
backend rejects, and a successful append is the ordinary one. -/
def ChatStoreState.add_messageE (fails : ChatMessage → Bool) (s : ChatStoreState)
    (key : String) (m : ChatMessage) : Except String ChatStoreState :=
  if fails m then Except.error "backend failure" else Except.ok (s.add_message key m)

/-- `put` over the fallible backend: forwards the single append and
propagates its failure. -/
def putE (fails : ChatMessage → Bool) (mem : BaseChatStoreMemory) (m : ChatMessage) :
    Except String BaseChatStoreMemory :=
  match mem.chat_store.add_messageE fails mem.chat_store_key m with
  | Except.ok s => Except.ok { mem with chat_store := s }
  | Except.error e => Except.error e

/-- `put_messages` over the fallible backend, translated from the source
loop (lines 48-51): each iteration mutates the memory in place, so when an
iteration raises, the state mutated by the earlier iterations persists and
the exception propagates. The result pairs the state at exit with the
surfaced failure, if any. -/
def put_messagesE (fails : ChatMessage → Bool) :
    BaseChatStoreMemory → List ChatMessage → BaseChatStoreMemory × Option String
  | mem, [] => (mem, none)
  | mem, m :: ms =>
    match putE fails mem m with
    | Except.ok mem2 => put_messagesE fails mem2 ms
    | Except.error e => (mem, some e)

/-- Counterexample for C3: with a backend that rejects exactly the message
`⟨"user", "bad"⟩`, the batch `put_messages [good, bad]` from an empty memory
fails, yet the state is not unchanged: the prefix `[good]` is left applied. -/
theorem put_messages_not_atomic :
    ¬ ((put_messagesE (fun m => m.content = "bad")
          ⟨fun _ => [], "k"⟩ [⟨"user", "good"⟩, ⟨"user", "bad"⟩]).2.isSome = true →
        (put_messagesE (fun m => m.content = "bad")
          ⟨fun _ => [], "k"⟩ [⟨"user", "good"⟩, ⟨"user", "bad"⟩]).1.get_all
          = (⟨fun _ => [], "k"⟩ : BaseChatStoreMemory).get_all) := by
  intro h
  have h2 := h (by decide)
  have h3 : (put_messagesE (fun m => m.content = "bad")
      ⟨fun _ => [], "k"⟩ [⟨"user", "good"⟩, ⟨"user", "bad"⟩]).1.get_all
      = [⟨"user", "good"⟩] := by decide
  rw [h3] at h2
  exact absurd h2 (by decide)

/-- C3 as amended: when the backend rejects a message, the batch stops at the
first failing message, the failure is surfaced to the caller, and the
appends of the messages preceding the failing one remain applied (a
partial-success state, not a rollback). -/
theorem put_messages_fails_with_prefix_applied (fails : ChatMessage → Bool)
    (mem : BaseChatStoreMemory) (pre : List ChatMessage) (x : ChatMessage)
    (rest : List ChatMessage) (hpre : ∀ m ∈ pre, fails m = false) (hx : fails x = true) :
    put_messagesE fails mem (pre ++ x :: rest)
      = (mem.put_messages pre, some "backend failure") := by
  rw [put_messages_eq_putSeq]
  induction pre generalizing mem with
  | nil =>
      simp only [List.nil_append, put_messagesE, putE, ChatStoreState.add_messageE, hx]
      rfl
  | cons m pre ih =>
      have hm : fails m = false := hpre m (List.mem_cons_self m pre)
      simp only [List.cons_append, put_messagesE, putE, ChatStoreState.add_messageE, hm]
      simp only [Bool.false_eq_true, if_false]
      exact ih (mem.put m) (fun m2 hm2 => hpre m2 (List.mem_cons_of_mem m hm2))

/-- Witness for C3 as amended, at a concrete backend, memory and batch. -/
theorem put_messages_fails_with_prefix_applied_witness :
    put_messagesE (fun m => m.content = "bad")
        ⟨fun _ => [], "k"⟩ [⟨"user", "good"⟩, ⟨"user", "bad"⟩, ⟨"user", "late"⟩]
      = ((⟨fun _ => [], "k"⟩ : BaseChatStoreMemory).put_messages [⟨"user", "good"⟩],
         some "backend failure") :=
  put_messages_fails_with_prefix_applied (fun m => m.content = "bad")
    ⟨fun _ => [], "k"⟩ [⟨"user", "good"⟩] ⟨"user", "bad"⟩ [⟨"user", "late"⟩]
    (by decide) (by decide)

/- Serialization hook. -/

/-- A Python dict with string keys, modelled as a partial map so that
`dict.update` has the overwrite semantics of the source. -/
def PyDict (V : Type) : Type := String → Option V

/-- `res.update({k: v})`: maps `k` to `v`, leaving every other key alone. -/
def PyDict.update {V : Type} (d : PyDict V) (k : String) (v : V) : PyDict V :=
  fun k2 => if k2 = k then some v else d k2

/-- Modelled from the spec: a serializable chat-store backend exposes its own
serialized state (its pydantic `model_dump`) and its concrete class name. -/
structure SerializableChatStore where
  model_dump : PyDict String
  class_name : String

/-- The `field_serializer` for `chat_store` (source lines 124-128): take the
model dump of the backend and update it with a `"class_name"` entry holding
the concrete class name of the backend. -/
def serialize_courses_in_order (chat_store : SerializableChatStore) : PyDict String :=
  (chat_store.model_dump).update "class_name" chat_store.class_name

/-- C8: the serialized `chat_store` field equals the model dump of the
backend plus a discriminator entry mapping `"class_name"` to the concrete
class name of the backend, for every backend instance. -/
theorem serialize_chat_store_spec (b : SerializableChatStore) :
    serialize_courses_in_order b "class_name" = some b.class_name ∧
    (∀ k, k ≠ "class_name" → serialize_courses_in_order b k = b.model_dump k) := by
  constructor
  · simp [serialize_courses_in_order, PyDict.update]
  · intro k hk
    simp [serialize_courses_in_order, PyDict.update, hk]

/-- Witness for C8 at a concrete backend instance. -/
theorem serialize_chat_store_spec_witness :
    serialize_courses_in_order ⟨fun _ => some "v", "SimpleChatStore"⟩ "class_name"
      = some "SimpleChatStore" ∧
    serialize_courses_in_order ⟨fun _ => some "v", "SimpleChatStore"⟩ "store" = some "v" := by
  have h := serialize_chat_store_spec ⟨fun _ => some "v", "SimpleChatStore"⟩
  exact ⟨h.1, h.2 "store" (by decide)⟩

/- Default construction. -/

/-- Modelled from the spec: the `default_factory=SimpleChatStore` creates a
fresh empty in-memory backend, so every key reads the empty history. -/
def SimpleChatStore.new : ChatStoreState := fun _ => []

/-- A `BaseChatStoreMemory` constructed with no explicit arguments: the
pydantic defaults of source lines 121-122, a fresh `SimpleChatStore` and the
key `DEFAULT_CHAT_STORE_KEY`. -/
def BaseChatStoreMemory.defaultInstance : BaseChatStoreMemory :=
  { chat_store := SimpleChatStore.new, chat_store_key := DEFAULT_CHAT_STORE_KEY }

/-- Two separately default-constructed memories: the `default_factory` gives
each instance its own private backend, so the pair carries two independent
backend states. -/
structure TwoDefaultMemories where
  first : BaseChatStoreMemory
  second : BaseChatStoreMemory

/-- Both instances freshly default-constructed. -/
def TwoDefaultMemories.init : TwoDefaultMemories :=
  ⟨BaseChatStoreMemory.defaultInstance, BaseChatStoreMemory.defaultInstance⟩

/-- A `put` on the first instance: only its own private backend mutates. -/
def TwoDefaultMemories.putFirst (w : TwoDefaultMemories) (m : ChatMessage) :
    TwoDefaultMemories :=
  ⟨w.first.put m, w.second⟩

/-- C10: a default-constructed memory is bound to the key `"chat_history"`
with an empty private backend, and a `put` on one default-constructed memory
is never observable via `get_all` on another. -/
theorem default_memory_private (m : ChatMessage) :
    BaseChatStoreMemory.defaultInstance.chat_store_key = "chat_history" ∧
    BaseChatStoreMemory.defaultInstance.get_all = [] ∧
    ((TwoDefaultMemories.init.putFirst m).first.get_all = [m] ∧
      (TwoDefaultMemories.init.putFirst m).second.get_all = []) := by
  refine ⟨rfl, rfl, ?_, rfl⟩
  show (BaseChatStoreMemory.defaultInstance.put m).get_all = [m]
  rw [get_all_put]
  rfl

/- Long-term memory tier. -/

/-- A long-term entry as retrieved for a conversation: the stored message,
its caller-supplied timestamp (the source uses a float wall-clock value; we
model it as a natural number since only its ordering is ever used), and its
insertion index within the conversation stream. -/
structure LTEntry where
  msg : ChatMessage
  ts : Nat
  idx : Nat
deriving DecidableEq, Repr

/-- Modelled from the spec: `LongTermMemory` (all methods abstract in the
source) partitions timestamped entries by conversation identifier; the state
maps each known conversation to its entry stream in insertion order. -/
def LongTermMemoryState : Type := List (String × List (ChatMessage × Nat))

/-- The entry stream of a conversation, empty when the conversation is
unknown (reads on an absent conversation are not an error). -/
def conversationEntries (M : LongTermMemoryState) (conversation_id : String) :
    List (ChatMessage × Nat) :=
  (M.lookup conversation_id).getD []

/-- Modelled from the spec: `add_message(message, conversation_id, timestamp)`
appends a timestamped entry to the stream of that conversation, implicitly
creating the conversation when absent. -/
def add_message : LongTermMemoryState → ChatMessage → String → Nat → LongTermMemoryState
  | [], m, c, t => [(c, [(m, t)])]
  | (c2, es) :: rest, m, c, t =>
    if c2 = c then (c2, es ++ [(m, t)]) :: rest else (c2, es) :: add_message rest m c t

/-- The conversation stream annotated with insertion indices. -/
def indexedEntries (M : LongTermMemoryState) (conversation_id : String) : List LTEntry :=
  (conversationEntries M conversation_id).enum.map fun p => ⟨p.2.1, p.2.2, p.1⟩

/-- Entry `a` is at least as recent as `b`: later timestamp first, ties
broken by later insertion (reverse insertion order). -/
def moreRecent (a b : LTEntry) : Prop :=
  b.ts < a.ts ∨ (b.ts = a.ts ∧ b.idx ≤ a.idx)

instance : DecidableRel moreRecent := fun a b => by
  unfold moreRecent
  exact inferInstance

instance : IsTotal LTEntry moreRecent :=
  ⟨fun a b => by unfold moreRecent; omega⟩

instance : IsTrans LTEntry moreRecent :=
  ⟨fun a b c hab hbc => by unfold moreRecent at hab hbc ⊢; omega⟩

/-- Modelled from the spec:
`get_recent_memories(conversation_id, before_timestamp, max_memories)`
returns up to `max_memories` entries of the conversation with timestamp
strictly below `before_timestamp`, most recent first (descending timestamp,
ties broken by reverse insertion order); unknown conversations yield the
empty sequence. The entry-level reference result. -/
def get_recent_entries (M : LongTermMemoryState) (conversation_id : String)
    (before_timestamp : Nat) (max_memories : Nat) : List LTEntry :=
  (List.insertionSort moreRecent
      ((indexedEntries M conversation_id).filter fun e => decide (e.ts < before_timestamp))
    ).take max_memories

/-- The retrieval surface of the source interface returns the messages of
the qualifying entries. -/
def get_recent_memories (M : LongTermMemoryState) (conversation_id : String)
    (before_timestamp : Nat) (max_memories : Nat) : List ChatMessage :=
  (get_recent_entries M conversation_id before_timestamp max_memories).map LTEntry.msg

theorem indexedEntries_idx_nodup (M : LongTermMemoryState) (c : String) :
    ((indexedEntries M c).map LTEntry.idx).Nodup := by
  rw [indexedEntries, List.map_map]
  exact List.nodup_enum_map_fst _

theorem get_recent_entries_idx_nodup (M : LongTermMemoryState) (c : String) (B N : Nat) :
    ((get_recent_entries M c B N).map LTEntry.idx).Nodup := by
  have hfil : List.Sublist
      (((indexedEntries M c).filter fun e => decide (e.ts < B)).map LTEntry.idx)
      ((indexedEntries M c).map LTEntry.idx) :=
    List.Sublist.map LTEntry.idx (List.filter_sublist _)
  have hnodupFil := List.Nodup.sublist hfil (indexedEntries_idx_nodup M c)
  have hperm := (List.perm_insertionSort moreRecent
    ((indexedEntries M c).filter fun e => decide (e.ts < B))).map LTEntry.idx
  have hnodupSort := hperm.nodup_iff.mpr hnodupFil
  exact List.Nodup.sublist (List.Sublist.map LTEntry.idx (List.take_sublist N _)) hnodupSort

/-- C7: `get_recent_memories` returns at most `max_memories` messages, namely
the messages of the qualifying entries; every qualifying entry has timestamp
strictly below `before_timestamp`; the entries are ordered by descending
timestamp with ties broken by reverse insertion order; and an unknown
conversation yields the empty sequence rather than an error. -/
theorem get_recent_memories_spec (M : LongTermMemoryState) (c : String) (B N : Nat) :
    (get_recent_memories M c B N).length ≤ N ∧
    get_recent_memories M c B N = (get_recent_entries M c B N).map LTEntry.msg ∧
    (∀ e ∈ get_recent_entries M c B N, e.ts < B) ∧
    (get_recent_entries M c B N).Pairwise
      (fun a b => b.ts < a.ts ∨ (b.ts = a.ts ∧ b.idx < a.idx)) ∧
    (M.lookup c = none → get_recent_memories M c B N = []) := by
  refine ⟨?_, rfl, ?_, ?_, ?_⟩
  · rw [get_recent_memories, List.length_map, get_recent_entries, List.length_take]
    exact min_le_left _ _
  · intro e he
    have hmem : e ∈ List.insertionSort moreRecent
        ((indexedEntries M c).filter fun e => decide (e.ts < B)) :=
      List.take_subset _ _ he
    have hfil := (List.perm_insertionSort moreRecent _).mem_iff.mp hmem
    exact of_decide_eq_true (List.mem_filter.mp hfil).2
  · have hsorted : List.Pairwise moreRecent
        (List.insertionSort moreRecent
          ((indexedEntries M c).filter fun e => decide (e.ts < B))) :=
      List.sorted_insertionSort moreRecent _
    have hpw : (get_recent_entries M c B N).Pairwise moreRecent :=
      List.Pairwise.sublist (List.take_sublist N _) hsorted
    have hne : (get_recent_entries M c B N).Pairwise fun a b => a.idx ≠ b.idx :=
      List.pairwise_map.mp (get_recent_entries_idx_nodup M c B N)
    refine (hpw.and hne).imp ?_
    intro a b hab
    rcases hab with ⟨hmr, hne2⟩
    unfold moreRecent at hmr
    omega
  · intro h
    simp [get_recent_memories, get_recent_entries, indexedEntries, conversationEntries, h]

/-- Witness for C7 at a concrete two-entry conversation built by
`add_message`, with a concrete qualifying entry and an unknown
conversation. -/
theorem get_recent_memories_spec_witness :
    (get_recent_memories (add_message (add_message [] ⟨"user", "a"⟩ "c" 5) ⟨"user", "b"⟩ "c" 3)
        "c" 10 10).length ≤ 10 ∧
    (⟨⟨"user", "a"⟩, 5, 0⟩ : LTEntry).ts < 10 ∧
    get_recent_memories (add_message (add_message [] ⟨"user", "a"⟩ "c" 5) ⟨"user", "b"⟩ "c" 3)
        "unknown" 10 10 = [] := by
  have h := get_recent_memories_spec
    (add_message (add_message [] ⟨"user", "a"⟩ "c" 5) ⟨"user", "b"⟩ "c" 3) "c" 10 10
  have h2 := get_recent_memories_spec
    (add_message (add_message [] ⟨"user", "a"⟩ "c" 5) ⟨"user", "b"⟩ "c" 3) "unknown" 10 10
  exact ⟨h.1, h.2.2.1 ⟨⟨"user", "a"⟩, 5, 0⟩ (by decide), h2.2.2.2.2 (by decide)⟩

end LlamaIndexMemory
